import Mathlib

/-!
Verification development for the state-transition-operator engine of the
CompartmentalSystems repository.

The Python code is shallowly embedded:
* a 1-d numpy array is modeled by its list of rational entries (`Vec`), a
  2-d array by its list of rows (`Mat`); `flatten()` on a 1-d array is the
  identity and is dropped;
* the external numerical collaborators (scipy `solve_ivp`/`odeint`,
  `np.linalg.inv`, `np.linalg.solve`) are abstract parameters of the
  embedded functions; `np.linalg.inv`/`np.linalg.solve` may fail
  (`LinAlgError` on singular input) and hence return `Except`;
* Python exceptions are modeled by `Except PyErr`; functions that mutate
  instance state (the memoized-inverse dictionary) also return the new
  state, and return it on the error path as well, because a Python
  exception does not roll back prior mutations.
-/

namespace CompartmentalSystems

/-- A 1-d numpy array of floats, modeled with exact rationals. -/
abbrev Vec := List ℚ

/-- A 2-d numpy array, as a list of rows. -/
abbrev Mat := List (List ℚ)

/-- Inner product of two rows. -/
def dotProd (a b : Vec) : ℚ := (List.zipWith (fun x y => x * y) a b).sum

/-- `np.matmul(m, v)` for a matrix and a vector. -/
def matVecMul (m : Mat) (v : Vec) : Vec := m.map (fun row => dotProd row v)

/-- `np.matmul(a, b)` for two matrices. -/
def matMul (a b : Mat) : Mat := a.map (fun row => b.transpose.map (dotProd row))

/-- `np.identity(n)`. -/
def identityMat (n : ℕ) : Mat :=
  (List.range n).map (fun i => (List.range n).map (fun j => if i = j then (1 : ℚ) else 0))

/-- `np.maximum(v, np.zeros_like(v))`: componentwise clamp to zero from below. -/
def npMaximum0 (v : Vec) : Vec := v.map (fun a => max a 0)

/-- Componentwise nonnegativity of a vector, as a decidable check. -/
def vecNonneg (v : Vec) : Bool := v.all (fun a => decide (0 ≤ a))

/-- `np.min` of a (nonempty) array. -/
def npMin (l : List ℚ) : ℚ := l.foldr min (l.headD 0)

/-- `np.linspace(a, b, n)`. -/
def linspace (a b : ℚ) (n : ℕ) : List ℚ :=
  (List.range n).map (fun i => a + (i : ℚ) * (b - a) / ((n : ℚ) - 1))

/-- `np.searchsorted(l, v)` with the default side `left`: index of the first
entry that is `≥ v`, or `l.length` when there is none. -/
def searchsorted (l : List ℚ) (v : ℚ) : ℕ := l.findIdx (fun a => decide (v ≤ a))

/-- The exceptions raised by the embedded code: the module-level
`Error(Exception)` class of `smooth_model_run.py`, a Python `NameError`
(raised when an unbound name is read), and `numpy.linalg.LinAlgError`. -/
inductive PyErr where
  | err (msg : String)
  | nameErr (nm : String)
  | linAlgErr (msg : String)
  | indexErr (msg : String)
  deriving DecidableEq, Repr

/-- Embeds `SmoothModelRun.check_phi_args` (smooth_model_run.py:3320-3334):
reject `t` or `s` strictly before `t_0 = np.min(self.times)`; a comment in the
source explicitly declines to reject `t < s`. -/
def check_phi_args (times : List ℚ) (t s : ℚ) : Except PyErr Unit :=
  let t_0 := npMin times
  if t < t_0 then
    .error (.err "Evaluation of Phi(t,s) with t before t0 is not possible")
  else if s < t_0 then
    .error (.err "Evaluation of Phi(t,s) with s before t0 is not possible")
  else .ok ()

/-- The 4-d cache array `_state_transition_operator_values`, indexed by
`[tm1_ind, tm2_ind, :, :]`; the two leading indices are modeled by nested
lists of matrices. -/
abbrev CacheTbl := List (List Mat)

/-- `ca[i, j, :, :]` on the cache table. -/
def tblGet (ca : CacheTbl) (i j : ℕ) : Mat := (ca.getD i []).getD j []

/-- The `cached_times = np.linspace(times[0], times[-1], nc)` grid used by
`_state_transition_operator` (smooth_model_run.py:3554-3558). -/
def sto_cached_times (times : List ℚ) (cacheSize : ℕ) : List ℚ :=
  linspace (times.headD 0) (times.getLastD 0) cacheSize

/-- The value `cached_times[cached_times.searchsorted(t0)]` computed by
`_state_transition_operator` (smooth_model_run.py:3562-3563), factored out so
that theorems can refer to it.  The engine consults it only after checking
that the index is in range (when `searchsorted` returns `nc`, i.e. `t0` is
beyond every cached time, the Python indexing raises `IndexError` instead);
the `getD` default is therefore never reached from the engine. -/
def sto_tm1 (times : List ℚ) (cacheSize : ℕ) (t0 : ℚ) : ℚ :=
  (sto_cached_times times cacheSize).getD
    (searchsorted (sto_cached_times times cacheSize) t0) 0

/-- Embeds `SmoothModelRun._state_transition_operator` (smooth_model_run.py:
3538-3589), the cached/fallback query for `Phi(t, t0) x`.
`linSol a b v` models `self._linearized_no_input_sol([a, b], v)`, the external
numerical integration of the linearized no-input system from `a` to `b` with
start value `v`.  Source structure mirrored:
* `t0 > t` raises `Error` (line 3539);
* `t0 == t` returns `x.flatten()` (line 3541), modeled as `x`;
* cache not built: return `np.maximum(linSol t0 t x, 0)` (lines 3547-3550, 3589);
* cache built: `tm1 = cached_times[cached_times.searchsorted(t0)]`
  (lines 3562-3563) raises `IndexError` when `searchsorted` returns `nc`
  (i.e. `t0` is greater than every cached time), modeled by the bounds check;
  then, if `t <= tm1`, return `linSol t0 t x` directly (line 3566) -- note:
  this return path bypasses the final clamp;
* otherwise integrate to `tm1`, multiply by the cached block, integrate the
  rest, and clamp at the final return (lines 3569-3589).  (`tblGet`'s
  out-of-range default is never exercised from a reachable state: `build` and
  `load` install the table together with `_cache_size`, so the leading axes
  have length `nc` and `tm1_ind < nc`, `tm2_ind <= nc - 1` are in range.) -/
def state_transition_operator (times : List ℚ) (stoValues : Option CacheTbl)
    (cacheSize : ℕ) (linSol : ℚ → ℚ → Vec → Vec) (t t0 : ℚ) (x : Vec) :
    Except PyErr Vec :=
  if t0 > t then .error (.err "Evaluation before t0 is not possible")
  else if t0 = t then .ok x
  else
    match stoValues with
    | none => .ok (npMaximum0 (linSol t0 t x))
    | some ca =>
      let t_max := (times.getLastD 0)
      let nc := cacheSize
      let tm1_ind := searchsorted (sto_cached_times times cacheSize) t0
      if tm1_ind < (sto_cached_times times cacheSize).length then
        let tm1 := sto_tm1 times cacheSize t0
        if t ≤ tm1 then .ok (linSol t0 t x)
        else
          let y := linSol t0 tm1 x
          let step_size := (t_max - tm1) / ((nc : ℚ) - 1)
          if 0 < step_size then
            let tm2_ind := min (Int.toNat ⌊(t - tm1) / step_size⌋) (nc - 1)
            let tm2 := tm1 + (tm2_ind : ℚ) * step_size
            let B := tblGet ca tm1_ind tm2_ind
            let z := matVecMul B y
            .ok (npMaximum0 (linSol tm2 t z))
          else
            .ok (npMaximum0 (linSol tm1 t y))
      else
        .error (.indexErr "index out of bounds: cached_times[tm1_ind]")

/-- `true` exactly when the query returned (no exception) a componentwise
nonnegative vector. -/
def returnsNonneg (r : Except PyErr Vec) : Bool :=
  match r with
  | .ok v => vecNonneg v
  | .error _ => false

/-- Embeds `SmoothModelRun._state_transition_operator_by_direct_integration_vec`
(smooth_model_run.py:3460-3492).  `solveIvpVec rhs y0 span` models
`solve_ivp(rhs, y0=y0, t_span=span).y[:, -1]`, the final value returned by the
external adaptive integrator (which integrates backward when
`span.1 > span.2`); `B_func` and `sol_func` model the compartmental-matrix
function and the `solve_2()` solution function. -/
def direct_integration_vec (times : List ℚ)
    (solveIvpVec : (ℚ → Vec → Vec) → Vec → ℚ × ℚ → Vec)
    (B_func : ℚ → Vec → Mat) (sol_func : ℚ → Vec)
    (t s : ℚ) (x : Vec) : Except PyErr Vec :=
  match check_phi_args times t s with
  | .error e => .error e
  | .ok _ =>
    if s = t then .ok x
    else
      let x_rhs : ℚ → Vec → Vec := fun tau y => matVecMul (B_func tau (sol_func tau)) y
      .ok (solveIvpVec x_rhs x (s, t))

/-- Embeds `SmoothModelRun._state_transition_operator_by_direct_integration`
(smooth_model_run.py:3494-3536).  With `x` given it delegates to the vector
version; with `x = None` it integrates the matrix ODE from the identity over
`t_span = (s, t)` (the flat `Phi_1d` vector and its `reshape(n, n)` are modeled
directly as a matrix).  `solveIvpMat` models the external matrix integration
analogously to `solveIvpVec`. -/
def direct_integration (times : List ℚ)
    (solveIvpVec : (ℚ → Vec → Vec) → Vec → ℚ × ℚ → Vec)
    (solveIvpMat : (ℚ → Mat → Mat) → Mat → ℚ × ℚ → Mat)
    (B_func : ℚ → Vec → Mat) (sol_func : ℚ → Vec) (n : ℕ)
    (t s : ℚ) (x : Option Vec) : Except PyErr (Mat ⊕ Vec) :=
  match x with
  | some v =>
    (direct_integration_vec times solveIvpVec B_func sol_func t s v).map Sum.inr
  | none =>
    match check_phi_args times t s with
    | .error e => .error e
    | .ok _ =>
      if s = t then .ok (.inl (identityMat n))
      else
        let Phi_rhs : ℚ → Mat → Mat := fun tau P => matMul (B_func tau (sol_func tau)) P
        .ok (.inl (solveIvpMat Phi_rhs (identityMat n) (s, t)))

/-- The memoized-inverse dictionary `self._skewPhiCache`, keyed by query time. -/
abbrev SkewCache := List (ℚ × Mat)

/-- Dictionary lookup `cache[key]` / `key in cache.keys()`. -/
def cacheLookup (c : SkewCache) (k : ℚ) : Option Mat :=
  match c with
  | [] => none
  | (k1, m) :: rest => if k = k1 then some m else cacheLookup rest k

/-- Embeds the local `my_inv` of
`_state_transition_operator_by_skew_product_system`
(smooth_model_run.py:3355-3365): look the inverse up under key `k`; on a miss
compute `np.linalg.inv(mat)` (which may raise `LinAlgError`, in which case
nothing is stored) and store it.  Returns the inverse together with the
updated dictionary. -/
def my_inv (inv : Mat → Except PyErr Mat) (cache : SkewCache) (k : ℚ) (mat : Mat) :
    Except PyErr (Mat × SkewCache) :=
  match cacheLookup cache k with
  | some m => .ok (m, cache)
  | none =>
    match inv mat with
    | .error e => .error e
    | .ok m => .ok (m, (k, m) :: cache)

/-- Embeds `SmoothModelRun._state_transition_operator_by_skew_product_system`
(smooth_model_run.py:3336-3458).  `Phi_t0_mat u` models the memoized
skew-product solution `Phi(u, t_0)` (reshaped to `n × n`); `inv` models
`np.linalg.inv`, `solveLin` models `np.linalg.solve`.  The memoized-inverse
dictionary is threaded through explicitly and is also returned on error paths,
since a Python exception does not undo prior dictionary assignments.
Source structure mirrored:
* `check_phi_args` (line 3367), then the `s == t` identity shortcut
  (lines 3370-3374, before any integration object is built);
* `s > t` branch (lines 3405-3429): with `x = None`, `A_inv = my_inv(t, A)` is
  computed (and possibly stored) and then line 3415 reads the unbound name
  `Ainv` -- the binding is `A_inv` -- so Python raises `NameError`; the same
  happens on the `x` given path when `t` is a key of the dictionary
  (line 3421); only the `x` given, key-missing path completes, via
  `u = solve(A, x); return matmul(B, u)`;
* `s == t_0` branch (lines 3433-3438);
* generic `t_0 < s < t` branch (lines 3440-3458) computing
  `A = Phi(t, t_0)`, `B = Phi(s, t_0)` and `A B⁻¹` (or its action on `x`). -/
def skew_product_sto (times : List ℚ) (n : ℕ) (Phi_t0_mat : ℚ → Mat)
    (inv : Mat → Except PyErr Mat) (solveLin : Mat → Vec → Except PyErr Vec)
    (cache : SkewCache) (t s : ℚ) (x : Option Vec) :
    Except PyErr (Mat ⊕ Vec) × SkewCache :=
  match check_phi_args times t s with
  | .error e => (.error e, cache)
  | .ok _ =>
    if s = t then
      match x with
      | none => (.ok (.inl (identityMat n)), cache)
      | some v => (.ok (.inr v), cache)
    else if s > t then
      let A := Phi_t0_mat t
      match x with
      | none =>
        match my_inv inv cache t A with
        | .error e => (.error e, cache)
        | .ok (_A_inv, cache1) => (.error (.nameErr "Ainv"), cache1)
      | some v =>
        if (cacheLookup cache t).isSome then
          match my_inv inv cache t A with
          | .error e => (.error e, cache)
          | .ok (_A_inv, cache1) => (.error (.nameErr "Ainv"), cache1)
        else
          match solveLin A v with
          | .error e => (.error e, cache)
          | .ok u => (.ok (.inr (matVecMul (Phi_t0_mat s) u)), cache)
    else if s = npMin times then
      let mat := Phi_t0_mat t
      match x with
      | none => (.ok (.inl mat), cache)
      | some v => (.ok (.inr (matVecMul mat v)), cache)
    else
      let A := Phi_t0_mat t
      let B := Phi_t0_mat s
      match x with
      | none =>
        match my_inv inv cache s B with
        | .error e => (.error e, cache)
        | .ok (B_inv, cache1) => (.ok (.inl (matMul A B_inv)), cache1)
      | some v =>
        if (cacheLookup cache t).isSome then
          match my_inv inv cache s B with
          | .error e => (.error e, cache)
          | .ok (B_inv, cache1) => (.ok (.inr (matVecMul (matMul A B_inv) v)), cache1)
        else
          match solveLin B v with
          | .error e => (.error e, cache)
          | .ok u => (.ok (.inr (matVecMul A u)), cache)

/-- Embeds `SmoothModelRun.sol_funcs` (smooth_model_run.py:360-376).
The loop body is
`for i in range(self.nr_pools): sol_restriction = lambda t: vec_sol_func(t)[i]`
followed by `sol_funcs.append(sol_restriction)`.  Python closures capture the
loop VARIABLE `i`, not its value at definition time; every stored lambda reads
`i` from the enclosing scope when it is finally called, and after the loop `i`
holds `nr_pools - 1`.  The embedding therefore evaluates every returned
callable at index `nr_pools - 1`.  `vec_sol_func` models the solution function
returned by `solve_2()`. -/
def sol_funcs (nr_pools : ℕ) (vec_sol_func : ℚ → Vec) : List (ℚ → ℚ) :=
  (List.range nr_pools).map (fun _ => fun t => (vec_sol_func t).getD (nr_pools - 1) 0)

/-- Embeds the factory construction used by `SmoothModelRun.linearize`
(smooth_model_run.py:227-240): `func_maker(pool)` returns a closure over the
call-time PARAMETER `pool`, so the callable built for index `i` reads
component `i`.  This is the construction the specification prescribes for
per-pool callables. -/
def sol_funcs_by_factory (nr_pools : ℕ) (vec_sol_func : ℚ → Vec) : List (ℚ → ℚ) :=
  (List.range nr_pools).map (fun i => fun t => (vec_sol_func t).getD i 0)

/-- Embeds the `bounded_num_rhs` closure built by
`helpers_reservoir.numerical_rhs` (helpers_reservoir.py:253-281):
`t_max = times[-1]`; for `t > t_max` the wrapped right-hand side is evaluated
at `t_max` instead of `t` (constant continuation).  The function returns a
value on every input; it raises nothing.  A `fixme` comment in the source
says "we should die hard here". -/
def bounded_num_rhs (times : List ℚ) (num_rhs : Vec → ℚ → Vec)
    (X : Vec) (t : ℚ) : Vec :=
  let t_max := times.getLastD 0
  if t > t_max then num_rhs X t_max else num_rhs X t

/-- Embeds the `_B` closure of `SmoothModelRun.B`
(smooth_model_run.py:193-200): `t = min(t, self.times[-1])` (marked
`fixme: another times cut off!` in the source), then the lambdified
compartmental matrix is evaluated at `X = np.ones(nr_pools)` and the clamped
time.  `B_func X t` models the lambdified matrix function. -/
def smr_B (times : List ℚ) (B_func : Vec → ℚ → Mat) (nr_pools : ℕ) (t : ℚ) : Mat :=
  let t1 := min t (times.getLastD 0)
  B_func (List.replicate nr_pools 1) t1

/-- The offset table `indices = [0] + [sum(sizes[:(i+1)]) for i in range(nb)]`
of `BlockIvp.build_rhss` / `BlockIvp.__init__` (BlockIvp.py:89,135). -/
def blockIndices (sizes : List ℕ) : List ℕ :=
  0 :: (List.range sizes.length).map (fun i => ((sizes.take (i + 1)).sum))

/-- Flattening: `np.concatenate([a.flatten() for a in start_arrays])`
(BlockIvp.py:142; likewise the concatenation of flattened derivative blocks at
line 113).  An array is modeled by its flattened data, which is faithful
because `reshape` to the declared shape is a bijection on data of the declared
size. -/
def flattenBlocks (blocks : List Vec) : Vec := blocks.flatten

/-- The slice `X[lo:hi]` of a 1-d array (BlockIvp.py:101). -/
def blockSlice (X : Vec) (lo hi : ℕ) : Vec := (X.drop lo).take (hi - lo)

/-- Unflattening of block `i`: `X[indices[i]:indices[i+1]]` followed by the
reshape to the declared shape (BlockIvp.py:100-106), on the flattened-data
model. -/
def unflattenBlock (sizes : List ℕ) (X : Vec) (i : ℕ) : Vec :=
  blockSlice X ((blockIndices sizes).getD i 0) ((blockIndices sizes).getD (i + 1) 0)

/-- The part of the `SmoothModelRun` instance state that the cache
save/load pair touches: the time grid, the 4-d cache table
(`_state_transition_operator_values`, `None` while unbuilt) and the cache
size. -/
structure SMRState where
  times : List ℚ
  stoValues : Option CacheTbl
  cacheSize : ℕ
  deriving DecidableEq, Repr

/-- The pickled record written by `save_state_transition_operator_cache`
(smooth_model_run.py:3301-3307): the dict
`{'values': ..., 'size': ..., 'times': ...}`; pickling is modeled as exact. -/
structure STOCacheFile where
  values : Option CacheTbl
  size : ℕ
  times : List ℚ
  deriving DecidableEq, Repr

/-- Embeds `SmoothModelRun.save_state_transition_operator_cache`
(smooth_model_run.py:3301-3307). -/
def save_state_transition_operator_cache (smr : SMRState) : STOCacheFile :=
  ⟨smr.stoValues, smr.cacheSize, smr.times⟩

/-- Embeds `SmoothModelRun.load_state_transition_operator_cache`
(smooth_model_run.py:3309-3318): `if not np.all(self.times == cache['times'])`
raise `Error(...)`; otherwise install the stored table and size.  For numpy
arrays, elementwise `==` followed by `np.all` is `False` whenever the grids
differ in some entry, and also when their lengths differ (differently-shaped
comparison yields the scalar `False`), which list equality models exactly. -/
def load_state_transition_operator_cache (smr : SMRState) (file : STOCacheFile) :
    Except PyErr SMRState :=
  if smr.times = file.times then
    .ok { smr with stoValues := file.values, cacheSize := file.size }
  else
    .error (.err "The cached state transition operator does not correspond to the current setting.")

/-! Helper lemmas (shared; not tied to a single claim). -/

lemma check_phi_args_ok (times : List ℚ) (t s : ℚ)
    (ht : npMin times ≤ t) (hs : npMin times ≤ s) :
    check_phi_args times t s = .ok () := by
  unfold check_phi_args
  rw [if_neg (not_lt.mpr ht), if_neg (not_lt.mpr hs)]

lemma check_phi_args_fails (times : List ℚ) (t s : ℚ)
    (h : t < npMin times ∨ s < npMin times) :
    ∃ e, check_phi_args times t s = .error e := by
  unfold check_phi_args
  rcases h with h | h
  · exact ⟨_, by rw [if_pos h]⟩
  · by_cases ht : t < npMin times
    · exact ⟨_, by rw [if_pos ht]⟩
    · exact ⟨_, by rw [if_neg ht, if_pos h]⟩

lemma vecNonneg_npMaximum0 (v : Vec) : vecNonneg (npMaximum0 v) = true := by
  rw [vecNonneg, List.all_eq_true]
  intro a ha
  simp only [npMaximum0, List.mem_map] at ha
  obtain ⟨b, _, rfl⟩ := ha
  simp [le_max_right]

lemma returnsNonneg_ite (c : Prop) [Decidable c] (a b : Vec) :
    returnsNonneg (if c then .ok (npMaximum0 a) else .ok (npMaximum0 b)) = true := by
  split <;> simp [returnsNonneg, vecNonneg_npMaximum0]

/-! Theorems for the claims. -/

/-- C3: the claim states that the i-th callable returned by `sol_funcs`
evaluates component i of the `solve_2()` solution.  The code defines the
lambdas inline in the loop, so all of them late-bind the loop variable: with
2 pools and the solution `t ↦ [t, t + 1]`, the callable at index 0 returns
`4 = `component 1 at time 3, while component 0 of the solution at time 3 is
`3`; the factory construction used elsewhere in the source
(`linearize.func_maker`) returns `3` as the claim requires. -/
theorem sol_funcs_late_binding_bug :
    ((sol_funcs 2 (fun t => [t, t + 1])).getD 0 (fun _ => 0)) 3 = 4
      ∧ (((fun t : ℚ => [t, t + 1]) 3).getD 0 0 = 3)
      ∧ ((sol_funcs_by_factory 2 (fun t => [t, t + 1])).getD 0 (fun _ => 0)) 3 = 3 := by
  refine ⟨?_, rfl, ?_⟩ <;> norm_num [sol_funcs, sol_funcs_by_factory, List.range_succ]

/-- C4: on the swap branch `s > t` with `x = None`, the source assigns
`A_inv` but multiplies by the unbound name `Ainv`, so the call raises
`NameError` instead of returning `B·A⁻¹`; the memoized inverse of
`A = Phi(t, t_0)` is nevertheless stored first.  Concrete run: `t = 0`,
`s = 1`, one pool, `Phi(·, t_0) = [[1]]`, empty memo dictionary. -/
theorem skew_swap_raises_name_error :
    skew_product_sto [(0 : ℚ), 1] 1 (fun _ => [[1]]) (fun _ => .ok [[1]])
        (fun _ w => .ok w) [] 0 1 none
      = (.error (.nameErr "Ainv"), [((0 : ℚ), [[(1 : ℚ)]])]) := by
  rfl

/-- C7: the claim states that a failing Phi query leaves the memoized state
unchanged.  On the swap branch `s > t` with `x = None` the call first stores
`inv(Phi(t, t_0))` in the memoized-inverse dictionary via `my_inv` and only
then raises (`NameError` on the unbound `Ainv`): the failed query grows the
dictionary from `[]` to one entry keyed by `t = 1`. -/
theorem skew_failed_query_mutates_cache :
    (skew_product_sto [(0 : ℚ), 2] 1 (fun _ => [[1]]) (fun _ => .ok [[1]])
        (fun _ w => .ok w) [] 1 2 none).2 = [((1 : ℚ), [[(1 : ℚ)]])]
      ∧ (skew_product_sto [(0 : ℚ), 2] 1 (fun _ => [[1]]) (fun _ => .ok [[1]])
        (fun _ w => .ok w) [] 1 2 none).1 = .error (.nameErr "Ainv") := by
  exact ⟨rfl, rfl⟩

/-- C10: evaluating the composed system beyond `t_end` is not rejected: with
`times = [0, 1]` and the right-hand side `(X, t) ↦ [t]`, the bounded wrapper
at `t = 5` silently returns the value at `t_end = 1` (constant continuation),
and `SmoothModelRun.B` at `t = 5` evaluates the matrix at `min(5, 1) = 1`. -/
theorem bounded_rhs_constant_continuation :
    bounded_num_rhs [(0 : ℚ), 1] (fun _ t => [t]) [0] 5 = [1]
      ∧ smr_B [(0 : ℚ), 1] (fun _ t => [[t]]) 1 5 = [[1]] := by
  constructor <;> norm_num [bounded_num_rhs, smr_B]

/-- C8: `load_state_transition_operator_cache` raises exactly when the stored
time grid differs from the current model grid; on exact equality it installs
the stored table and cache size unchanged; and a `save` followed by a `load`
on the same model restores the instance state exactly. -/
theorem load_cache_spec (smr : SMRState) (file : STOCacheFile) :
    ((load_state_transition_operator_cache smr file).isOk ↔ smr.times = file.times)
      ∧ load_state_transition_operator_cache smr file
        = (if smr.times = file.times
           then .ok ⟨smr.times, file.values, file.size⟩
           else .error (.err "The cached state transition operator does not correspond to the current setting."))
      ∧ load_state_transition_operator_cache smr
          (save_state_transition_operator_cache smr) = .ok smr := by
  unfold load_state_transition_operator_cache save_state_transition_operator_cache
  refine ⟨?_, ?_, ?_⟩
  · by_cases h : smr.times = file.times <;> simp [h, Except.isOk, Except.toBool]
  · by_cases h : smr.times = file.times <;> simp [h]
  · simp

/-- C5: for every `s` at or after the global start, each of the three
strategies answers the query `Phi(s, s)` with exactly the input vector (and
the matrix forms with exactly the identity matrix).  All numerical
collaborators (`linSol`, `solveIvpVec`, `solveIvpMat`, `Phi_t0_mat`, `inv`,
`solveLin`) are universally quantified and absent from the right-hand sides,
so no integration (and no inversion) is dispatched, and the memoized state is
untouched. -/
theorem identity_law (times : List ℚ) (n : ℕ) (Phi_t0_mat : ℚ → Mat)
    (inv : Mat → Except PyErr Mat) (solveLin : Mat → Vec → Except PyErr Vec)
    (cache : SkewCache) (stoValues : Option CacheTbl) (cacheSize : ℕ)
    (linSol : ℚ → ℚ → Vec → Vec)
    (solveIvpVec : (ℚ → Vec → Vec) → Vec → ℚ × ℚ → Vec)
    (solveIvpMat : (ℚ → Mat → Mat) → Mat → ℚ × ℚ → Mat)
    (B_func : ℚ → Vec → Mat) (sol_func : ℚ → Vec)
    (s : ℚ) (x : Vec) (h : npMin times ≤ s) :
    skew_product_sto times n Phi_t0_mat inv solveLin cache s s (some x)
        = (.ok (.inr x), cache)
      ∧ skew_product_sto times n Phi_t0_mat inv solveLin cache s s none
        = (.ok (.inl (identityMat n)), cache)
      ∧ direct_integration_vec times solveIvpVec B_func sol_func s s x = .ok x
      ∧ direct_integration times solveIvpVec solveIvpMat B_func sol_func n s s none
        = .ok (.inl (identityMat n))
      ∧ state_transition_operator times stoValues cacheSize linSol s s x = .ok x := by
  have hc : check_phi_args times s s = .ok () := check_phi_args_ok times s s h h
  refine ⟨?_, ?_, ?_, ?_, ?_⟩
  · simp [skew_product_sto, hc]
  · simp [skew_product_sto, hc]
  · simp [direct_integration_vec, hc]
  · simp [direct_integration, hc]
  · simp [state_transition_operator]

/-- C5 witness: the identity law at a concrete instance (one pool,
`times = [0, 1]`, `s = 0`, `x = [1]`, arbitrary concrete collaborators). -/
theorem identity_law_witness :
    npMin [(0 : ℚ), 1] ≤ 0 ∧
      (skew_product_sto [(0 : ℚ), 1] 1 (fun _ => [[1]]) (fun m => .ok m)
          (fun _ w => .ok w) [] 0 0 (some [1]) = (.ok (.inr [1]), [])
        ∧ skew_product_sto [(0 : ℚ), 1] 1 (fun _ => [[1]]) (fun m => .ok m)
          (fun _ w => .ok w) [] 0 0 none = (.ok (.inl (identityMat 1)), [])
        ∧ direct_integration_vec [(0 : ℚ), 1] (fun _ y _ => y) (fun _ _ => [[0]])
          (fun _ => [0]) 0 0 [1] = .ok [1]
        ∧ direct_integration [(0 : ℚ), 1] (fun _ y _ => y) (fun _ P _ => P)
          (fun _ _ => [[0]]) (fun _ => [0]) 1 0 0 none = .ok (.inl (identityMat 1))
        ∧ state_transition_operator [(0 : ℚ), 1] none 0 (fun _ _ w => w) 0 0 [1]
          = .ok [1]) :=
  ⟨by norm_num [npMin],
   identity_law [(0 : ℚ), 1] 1 (fun _ => [[1]]) (fun m => .ok m) (fun _ w => .ok w)
     [] none 0 (fun _ _ w => w) (fun _ y _ => y) (fun _ P _ => P)
     (fun _ _ => [[0]]) (fun _ => [0]) 0 [1] (by norm_num [npMin])⟩

/-- C1 counterexample: the direct-integration strategy does not clamp its
return value.  With the external integrator reporting a (tolerance-induced)
negative value `[-1]` for the backward-error-free query `Phi(1, 0)·[1]`, the
strategy returns `[-1]` unchanged, which is not componentwise nonnegative,
although `x = [1] ≥ 0` and `1 ≥ 0 ≥` global start `0`. -/
theorem direct_integration_returns_negative :
    direct_integration_vec [(0 : ℚ), 1] (fun _ _ _ => [-1]) (fun _ _ => [[0]])
        (fun _ => [0]) 1 0 [1] = .ok [-1]
      ∧ vecNonneg [-1] = false := by
  exact ⟨rfl, by decide⟩

/-- C1 (amended): only the cached/fallback query `_state_transition_operator`
clamps, and only on the return paths that flow through its final
`np.maximum(soln, 0)`: for `t0 < t`, whenever the cache is unbuilt, or the
cache is built and the query neither indexes past the cached-times grid
(`searchsorted` in range, which in Python would raise `IndexError`) nor takes
the early unclamped return (`tm1 < t`), the returned vector is componentwise
nonnegative for every vector `x` and every behavior of the external
integrator.  (The early cache-path return for `t ≤ tm1` and the other two
strategies return the raw integrator value.) -/
theorem sto_clamps_on_final_return (times : List ℚ) (stoValues : Option CacheTbl)
    (cacheSize : ℕ) (linSol : ℚ → ℚ → Vec → Vec) (t t0 : ℚ) (x : Vec)
    (h1 : t0 < t)
    (h2 : stoValues = none ∨
      (searchsorted (sto_cached_times times cacheSize) t0
          < (sto_cached_times times cacheSize).length
        ∧ sto_tm1 times cacheSize t0 < t)) :
    returnsNonneg (state_transition_operator times stoValues cacheSize linSol t t0 x)
      = true := by
  unfold state_transition_operator
  rw [if_neg (not_lt.mpr h1.le), if_neg h1.ne]
  cases stoValues with
  | none => simp [returnsNonneg, vecNonneg_npMaximum0]
  | some ca =>
    rcases h2 with h2 | ⟨hin, htm1⟩
    · exact absurd h2 (by simp)
    · have hle : ¬ t ≤ sto_tm1 times cacheSize t0 := not_le.mpr htm1
      simp only [hin, if_true, hle, if_false]
      exact returnsNonneg_ite _ _ _

/-- C1 witness: the amended clamping guarantee at a concrete instance (cache
unbuilt, integrator reporting `[-5]`): the query returns a nonnegative
vector. -/
theorem sto_clamps_on_final_return_witness :
    (0 : ℚ) < 1 ∧
      returnsNonneg (state_transition_operator [(0 : ℚ), 1] none 0
        (fun _ _ _ => [-5]) 1 0 [1]) = true :=
  ⟨by norm_num,
   sto_clamps_on_final_return [(0 : ℚ), 1] none 0 (fun _ _ _ => [-5]) 1 0 [1]
     (by norm_num) (Or.inl rfl)⟩

/-- C2 counterexample: the cached/fallback query `_state_transition_operator`
rejects every backward query: at `t = 0 < t0 = 1` (both inside the model span
`[0, 1]`) it raises `Error` instead of integrating backward. -/
theorem sto_rejects_backward_query :
    state_transition_operator [(0 : ℚ), 1] none 0 (fun _ _ w => w) 0 1 [1]
      = .error (.err "Evaluation before t0 is not possible") := by
  rfl

/-- C2 (amended): for `t < s` with both at or after the global start, the
direct-integration strategies hand the external integrator the reversed span
`(s, t)` and return its value without raising, and the skew-product strategy
completes on its `x`-given path with no memoized inverse at `t` (computing
`Phi(s,t0) · solve(Phi(t,t0), x)` by a linear solve); the cached/fallback
`_state_transition_operator` instead raises an error for every `t < s`. -/
theorem backward_integration_supported
    (times : List ℚ) (siv : (ℚ → Vec → Vec) → Vec → ℚ × ℚ → Vec)
    (sim : (ℚ → Mat → Mat) → Mat → ℚ × ℚ → Mat)
    (B_func : ℚ → Vec → Mat) (sol_func : ℚ → Vec) (n : ℕ)
    (PhiT0 : ℚ → Mat) (inv : Mat → Except PyErr Mat)
    (solveLin : Mat → Vec → Except PyErr Vec) (cache : SkewCache)
    (stoValues : Option CacheTbl) (cacheSize : ℕ) (linSol : ℚ → ℚ → Vec → Vec)
    (t s : ℚ) (v u x : Vec)
    (hts : t < s) (ht : npMin times ≤ t) (hs : npMin times ≤ s)
    (hmiss : cacheLookup cache t = none)
    (hsolve : solveLin (PhiT0 t) v = .ok u) :
    direct_integration_vec times siv B_func sol_func t s x
        = .ok (siv (fun tau y => matVecMul (B_func tau (sol_func tau)) y) x (s, t))
      ∧ direct_integration times siv sim B_func sol_func n t s none
        = .ok (.inl (sim (fun tau P => matMul (B_func tau (sol_func tau)) P)
            (identityMat n) (s, t)))
      ∧ skew_product_sto times n PhiT0 inv solveLin cache t s (some v)
        = (.ok (.inr (matVecMul (PhiT0 s) u)), cache)
      ∧ (state_transition_operator times stoValues cacheSize linSol t s x).isOk
        = false := by
  have hc := check_phi_args_ok times t s ht hs
  have hne : ¬ s = t := ne_of_gt hts
  refine ⟨?_, ?_, ?_, ?_⟩
  · simp [direct_integration_vec, hc, hne]
  · simp [direct_integration, hc, hne]
  · simp [skew_product_sto, hc, hne, hts, hmiss, hsolve]
  · simp [state_transition_operator, hts, Except.isOk, Except.toBool]

/-- C2 witness: the amended backward-query behavior at a concrete instance
(`t = 0 < s = 1`, one pool, concrete collaborators). -/
theorem backward_integration_supported_witness :
    (0 : ℚ) < 1 ∧
      (direct_integration_vec [(0 : ℚ), 1] (fun _ _ _ => [7]) (fun _ _ => [[0]])
          (fun _ => [0]) 0 1 [1] = .ok [7]
        ∧ direct_integration [(0 : ℚ), 1] (fun _ _ _ => [7]) (fun _ _ _ => [[7]])
          (fun _ _ => [[0]]) (fun _ => [0]) 1 0 1 none = .ok (.inl [[7]])
        ∧ skew_product_sto [(0 : ℚ), 1] 1 (fun _ => [[1]]) (fun m => .ok m)
          (fun _ w => .ok w) [] 0 1 (some [1])
          = (.ok (.inr (matVecMul [[1]] [1])), [])
        ∧ (state_transition_operator [(0 : ℚ), 1] none 0 (fun _ _ w => w) 0 1
            [1]).isOk = false) :=
  ⟨by norm_num,
   backward_integration_supported [(0 : ℚ), 1] (fun _ _ _ => [7]) (fun _ _ _ => [[7]])
     (fun _ _ => [[0]]) (fun _ => [0]) 1 (fun _ => [[1]]) (fun m => .ok m)
     (fun _ w => .ok w) [] none 0 (fun _ _ w => w) 0 1 [1] [1] [1]
     (by norm_num) (by norm_num [npMin]) (by norm_num [npMin]) rfl rfl⟩

/-- C6 counterexample: `_state_transition_operator` does not reject query
times before the global start `min(times) = 0`: at `t0 = -2`, `t = -1` (both
strictly before the start) it silently integrates and returns a value. -/
theorem sto_accepts_times_before_global_start :
    ((-1 : ℚ) < npMin [(0 : ℚ), 1] ∧ (-2 : ℚ) < npMin [(0 : ℚ), 1])
      ∧ state_transition_operator [(0 : ℚ), 1] none 0 (fun _ _ _ => [5]) (-1) (-2)
          [1] = .ok [5] := by
  refine ⟨⟨by norm_num [npMin], by norm_num [npMin]⟩, rfl⟩

/-- C6 (amended): the skew-product and direct-integration strategies reject
(via `check_phi_args`) every query in which `t` or `s` lies strictly before
`np.min(times)`; the cached/fallback `_state_transition_operator` performs no
such check and only rejects `t0 > t`. -/
theorem domain_rejection
    (times : List ℚ) (n : ℕ) (PhiT0 : ℚ → Mat) (inv : Mat → Except PyErr Mat)
    (solveLin : Mat → Vec → Except PyErr Vec) (cache : SkewCache)
    (siv : (ℚ → Vec → Vec) → Vec → ℚ × ℚ → Vec)
    (sim : (ℚ → Mat → Mat) → Mat → ℚ × ℚ → Mat)
    (B_func : ℚ → Vec → Mat) (sol_func : ℚ → Vec)
    (t s : ℚ) (x : Vec) (xo : Option Vec)
    (h : t < npMin times ∨ s < npMin times) :
    (check_phi_args times t s).isOk = false
      ∧ (skew_product_sto times n PhiT0 inv solveLin cache t s xo).1.isOk = false
      ∧ (direct_integration_vec times siv B_func sol_func t s x).isOk = false
      ∧ (direct_integration times siv sim B_func sol_func n t s xo).isOk
        = false := by
  obtain ⟨e, he⟩ := check_phi_args_fails times t s h
  refine ⟨?_, ?_, ?_, ?_⟩
  · simp [he, Except.isOk, Except.toBool]
  · simp [skew_product_sto, he, Except.isOk, Except.toBool]
  · simp [direct_integration_vec, he, Except.isOk, Except.toBool]
  · cases xo with
    | none => simp [direct_integration, he, Except.isOk, Except.toBool]
    | some v =>
      simp [direct_integration, direct_integration_vec, he, Except.map,
        Except.isOk, Except.toBool]

/-- C6 witness: the amended rejection behavior at a concrete instance
(`t = -1` before the global start `0`). -/
theorem domain_rejection_witness :
    ((-1 : ℚ) < npMin [(0 : ℚ), 1] ∨ (1 : ℚ) < npMin [(0 : ℚ), 1]) ∧
      ((check_phi_args [(0 : ℚ), 1] (-1) 1).isOk = false
        ∧ (skew_product_sto [(0 : ℚ), 1] 1 (fun _ => [[1]]) (fun m => .ok m)
            (fun _ w => .ok w) [] (-1) 1 none).1.isOk = false
        ∧ (direct_integration_vec [(0 : ℚ), 1] (fun _ y _ => y) (fun _ _ => [[0]])
            (fun _ => [0]) (-1) 1 [1]).isOk = false
        ∧ (direct_integration [(0 : ℚ), 1] (fun _ y _ => y) (fun _ P _ => P)
            (fun _ _ => [[0]]) (fun _ => [0]) 1 (-1) 1 none).isOk = false) :=
  ⟨Or.inl (by norm_num [npMin]),
   domain_rejection [(0 : ℚ), 1] 1 (fun _ => [[1]]) (fun m => .ok m)
     (fun _ w => .ok w) [] (fun _ y _ => y) (fun _ P _ => P) (fun _ _ => [[0]])
     (fun _ => [0]) (-1) 1 [1] none (Or.inl (by norm_num [npMin]))⟩

lemma getD_blockIndices (sizes : List ℕ) (k : ℕ) (hk : k ≤ sizes.length) :
    (blockIndices sizes).getD k 0 = (sizes.take k).sum := by
  cases k with
  | zero => simp [blockIndices]
  | succ j =>
    have hj : j < sizes.length := hk
    simp only [blockIndices]
    rw [List.getD_cons_succ, List.getD_eq_getElem?_getD, List.getElem?_map,
        List.getElem?_range hj]
    rfl

lemma flatten_slice (blocks : List Vec) (i : ℕ) (h : i < blocks.length) :
    ((flattenBlocks blocks).drop (((blocks.map List.length).take i).sum)).take
        ((blocks.getD i []).length)
      = blocks.getD i [] := by
  induction blocks generalizing i with
  | nil => simp at h
  | cons b rest ih =>
    cases i with
    | zero =>
      simp only [flattenBlocks, List.flatten_cons, List.map_cons, List.take_zero,
        List.sum_nil, List.drop_zero, List.getD_cons_zero]
      exact List.take_left b rest.flatten
    | succ j =>
      have hj : j < rest.length := Nat.lt_of_succ_lt_succ (by simpa using h)
      simp only [flattenBlocks, List.flatten_cons, List.map_cons, List.take_succ_cons,
        List.sum_cons, List.getD_cons_succ]
      rw [List.drop_append]
      exact ih j hj

/-- C9: for every declared block list and every assignment of (conforming)
values -- modeled, as in `BlockIvp.__init__`, by the per-block arrays
themselves, whose flattened data lists determine the declared sizes --
flattening (concatenation in declaration order) followed by unflattening via
the offset table `indices` (slicing `[indices[i], indices[i+1])`) reproduces
every per-block array exactly. -/
theorem block_flatten_unflatten_roundtrip (blocks : List Vec) (i : ℕ)
    (h : i < blocks.length) :
    unflattenBlock (blocks.map List.length) (flattenBlocks blocks) i
      = blocks.getD i [] := by
  have hlen : (blocks.map List.length).length = blocks.length := List.length_map ..
  have hi1 : (blockIndices (blocks.map List.length)).getD i 0
      = ((blocks.map List.length).take i).sum :=
    getD_blockIndices _ i (by rw [hlen]; exact h.le)
  have hi2 : (blockIndices (blocks.map List.length)).getD (i + 1) 0
      = ((blocks.map List.length).take (i + 1)).sum :=
    getD_blockIndices _ (i + 1) (by rw [hlen]; exact h)
  unfold unflattenBlock blockSlice
  rw [hi1, hi2]
  have hilt : i < (blocks.map List.length).length := by rw [hlen]; exact h
  have hsucc : ((blocks.map List.length).take (i + 1)).sum
      = ((blocks.map List.length).take i).sum + (blocks.getD i []).length := by
    rw [List.sum_take_succ _ i hilt]
    congr 1
    simp [List.getElem_map, List.getD_eq_getElem, h]
  rw [hsucc, Nat.add_sub_cancel_left]
  exact flatten_slice blocks i h

/-- C9 witness: the round trip at the concrete layout `[[1, 2], [3]]`,
block 1. -/
theorem block_flatten_unflatten_roundtrip_witness :
    1 < ([[(1 : ℚ), 2], [3]] : List Vec).length ∧
      unflattenBlock (([[(1 : ℚ), 2], [3]] : List Vec).map List.length)
        (flattenBlocks [[(1 : ℚ), 2], [3]]) 1
        = ([[(1 : ℚ), 2], [3]] : List Vec).getD 1 [] :=
  ⟨by norm_num, block_flatten_unflatten_roundtrip [[(1 : ℚ), 2], [3]] 1 (by norm_num)⟩

end CompartmentalSystems
